import Mathlib

/-!
A shallow embedding of `src/report.py`: a delimited employee-record loader, a
department-to-teams hierarchy builder, a per-department salary summariser, a
summary display renderer and a summary persister, together with proofs of the
specification claims.

Python values are modelled as follows: `str` as `String`, `int` as `Int`
(Python integers are arbitrary precision), `float` as `ℚ` (the program only
divides integers, which the embedding keeps exact), raised exceptions as
`Except`/`Option` error results.  `FileNotFoundError` and the file-system
side of `open` are outside the embedding; the loader consumes the already
split rows of the file, the persister produces the table it would write.
-/

namespace Report

/-- Python exceptions `read_input_file` can raise while parsing rows. -/
inductive LoadError where
  /-- `KeyError`: a required field is absent from the header row, so the
  `DictReader` row dictionary has no such key. -/
  | keyError : LoadError
  /-- `ValueError` (or `TypeError`): a cell's text cannot be coerced to the
  field's declared type. -/
  | valueError : LoadError
deriving DecidableEq

instance {ε α : Type} [DecidableEq ε] [DecidableEq α] :
    DecidableEq (Except ε α) := fun a b =>
  match a, b with
  | Except.error e1, Except.error e2 =>
    if h : e1 = e2 then isTrue (by rw [h])
    else isFalse (fun hh => h (by cases hh; rfl))
  | Except.error _, Except.ok _ => isFalse (fun hh => Except.noConfusion hh)
  | Except.ok _, Except.error _ => isFalse (fun hh => Except.noConfusion hh)
  | Except.ok a1, Except.ok a2 =>
    if h : a1 = a2 then isTrue (by rw [h])
    else isFalse (fun hh => h (by cases hh; rfl))

/-- Module constant `DELIMITER = ';'` of `report.py`, the field separator
used when reading the input file. -/
def DELIMITER : Char := ';'

def FULL_NAME_FIELD : String := "ФИО полностью"

def DEPARTMENT_FIELD : String := "Департамент"

def TEAM_FIELD : String := "Отдел"

def POSITION_FIELD : String := "Должность"

def RATING_FIELD : String := "Оценка"

def SALARY_FIELD : String := "Оклад"

/-- The three coercion rules appearing in `REQUIRED_FIELDS` (`str`, `float`,
`int`). -/
inductive FieldType where
  | tStr : FieldType
  | tFloat : FieldType
  | tInt : FieldType
deriving DecidableEq

/-- `REQUIRED_FIELDS`: the schema dictionary mapping each required field name
to its coercion rule, in the source's insertion order. -/
def REQUIRED_FIELDS : List (String × FieldType) :=
  [(FULL_NAME_FIELD, FieldType.tStr), (DEPARTMENT_FIELD, FieldType.tStr),
   (TEAM_FIELD, FieldType.tStr), (RATING_FIELD, FieldType.tFloat),
   (SALARY_FIELD, FieldType.tInt)]

/-- The names of the required fields, in schema order. -/
def requiredFieldNames : List String := REQUIRED_FIELDS.map Prod.fst

/-- A parsed employee row.  The source stores each parsed row as a dict whose
keys are exactly the `REQUIRED_FIELDS` names; the embedding uses a structure
with one field per required schema field. -/
structure EmployeeRecord where
  full_name : String
  department : String
  team : String
  rating : ℚ
  salary : Int
deriving DecidableEq

/-- The `DepartmentSummary` namedtuple of the source. -/
structure DepartmentSummary where
  name : String
  headcount : Nat
  min_salary : Int
  max_salary : Int
  avg_salary : ℚ
deriving DecidableEq

/-- A delimited input file after splitting: the header row and the data rows,
each a list of cells.  Data cells are assumed aligned with the header
positions, as `csv.DictReader` aligns them. -/
structure RawInput where
  header : List String
  rows : List (List String)
deriving DecidableEq

/-- Numeric value of a run of decimal digit characters. -/
def digitsToNat (ds : List Char) : Nat :=
  ds.foldl (fun n c => 10 * n + (c.toNat - 48)) 0

/-- Parses a nonempty all-digit character run, else fails. -/
def parseNatDigits (ds : List Char) : Option Nat :=
  if !ds.isEmpty && ds.all Char.isDigit then some (digitsToNat ds) else none

/-- Modelled Python `int()` on decimal literals: optional sign then digits.
(Surrounding whitespace and underscore separators, which Python also accepts,
are not modelled; no claim depends on them.) -/
def parsePyInt (s : String) : Option Int :=
  match s.toList with
  | '-' :: ds => (parseNatDigits ds).map (fun n => -(n : Int))
  | '+' :: ds => (parseNatDigits ds).map (fun n => (n : Int))
  | ds => (parseNatDigits ds).map (fun n => (n : Int))

/-- Unsigned decimal literal with optional fractional part, valued exactly as
a rational. -/
def parseUnsignedFloat (cs : List Char) : Option ℚ :=
  match cs.dropWhile Char.isDigit with
  | [] =>
    if (cs.takeWhile Char.isDigit).isEmpty then none
    else some (digitsToNat (cs.takeWhile Char.isDigit) : ℚ)
  | '.' :: frac =>
    if (cs.takeWhile Char.isDigit).isEmpty && frac.isEmpty then none
    else if frac.all Char.isDigit then
      some ((digitsToNat (cs.takeWhile Char.isDigit) : ℚ) +
        (digitsToNat frac : ℚ) / (10 ^ frac.length : ℚ))
    else none
  | _ => none

/-- Modelled Python `float()` on plain decimal literals: optional sign,
integer part, optional fractional part.  (Exponents, `inf`/`nan` and
whitespace are not modelled; the value is kept exact as a rational.) -/
def parsePyFloat (s : String) : Option ℚ :=
  match s.toList with
  | '-' :: cs => (parseUnsignedFloat cs).map (fun q => -q)
  | '+' :: cs => parseUnsignedFloat cs
  | cs => parseUnsignedFloat cs

/-- Position of a field name in the header row, if present. -/
def fieldIndex (header : List String) (field : String) : Option Nat :=
  match header with
  | [] => none
  | h :: hs => if h = field then some 0 else (fieldIndex hs field).map (· + 1)

/-- `row[field]` on a `csv.DictReader` row: the cell in the column the header
names `field`; raises `KeyError` when the header has no such column.  (A cell
missing from a short data row, which `DictReader` fills with `restval=None`,
is modelled as the empty string; no claim depends on ragged rows.) -/
def dictReaderLookup (header row : List String) (field : String) :
    Except LoadError String :=
  match fieldIndex header field with
  | none => Except.error LoadError.keyError
  | some i => Except.ok (row.getD i "")

/-- Exception propagation: an error short-circuits, a value flows on. -/
def bindE {ε α β : Type} (x : Except ε α) (f : α → Except ε β) : Except ε β :=
  match x with
  | Except.error e => Except.error e
  | Except.ok a => f a

/-- A failed Python conversion raises `ValueError`. -/
def optToExcept {α : Type} (x : Option α) : Except LoadError α :=
  match x with
  | none => Except.error LoadError.valueError
  | some a => Except.ok a

/-- Parsing of one data row: the dict comprehension
`{field: value(row[field]) for field, value in REQUIRED_FIELDS.items()}`,
which looks up and coerces the fields in `REQUIRED_FIELDS` order and raises
at the first lookup or coercion failure. -/
def parseRow (header row : List String) : Except LoadError EmployeeRecord :=
  bindE (dictReaderLookup header row FULL_NAME_FIELD) fun full_name =>
  bindE (dictReaderLookup header row DEPARTMENT_FIELD) fun department =>
  bindE (dictReaderLookup header row TEAM_FIELD) fun team =>
  bindE (dictReaderLookup header row RATING_FIELD) fun ratingRaw =>
  bindE (optToExcept (parsePyFloat ratingRaw)) fun rating =>
  bindE (dictReaderLookup header row SALARY_FIELD) fun salaryRaw =>
  bindE (optToExcept (parsePyInt salaryRaw)) fun salary =>
  Except.ok ⟨full_name, department, team, rating, salary⟩

/-- Left-to-right effectful map over `Except`: the list comprehension in
`read_input_file`, which aborts at the first raised exception and otherwise
yields one element per row. -/
def mapExcept {ε α β : Type} (f : α → Except ε β) : List α → Except ε (List β)
  | [] => Except.ok []
  | a :: as =>
    bindE (f a) fun b =>
    bindE (mapExcept f as) fun bs =>
    Except.ok (b :: bs)

/-- `read_input_file`: parses every data row against the header, in file row
order, aborting on the first failure. -/
def read_input_file (input : RawInput) : Except LoadError (List EmployeeRecord) :=
  mapExcept (parseRow input.header) input.rows

/-- Insertion into a `defaultdict`-backed grouping, modelled as an
association list in key insertion order (Python dicts iterate in insertion
order): a missing key is appended at the end with value `f []`, an existing
key's value `vs` is replaced by `f vs`. -/
def insertWith {β : Type} (f : List β → List β) :
    List (String × List β) → String → List (String × List β)
  | [], key => [(key, f [])]
  | (k, vs) :: rest, key =>
    if k = key then (k, f vs) :: rest else (k, vs) :: insertWith f rest key

/-- First-match lookup in an association list (dict access). -/
def lookupKey {β : Type} : List (String × β) → String → Option β
  | [], _ => none
  | (k, v) :: rest, d => if k = d then some v else lookupKey rest d

/-- The `departments` mapping that `print_company_hierarchy` builds before
printing it: `defaultdict(set)`, each record's team added under its
department.  The Python set is modelled as a first-occurrence-ordered list
without duplicates (set semantics; Python set iteration order is arbitrary
and the spec leaves team order unspecified). -/
def company_hierarchy (rows : List EmployeeRecord) : List (String × List String) :=
  rows.foldl
    (fun acc row =>
      insertWith (fun ts => if row.team ∈ ts then ts else ts ++ [row.team])
        acc row.department) []

/-- The `salaries_by_department` mapping of `build_department_summaries`:
`defaultdict(list)`, each record's salary appended under its department. -/
def salariesByDepartment (rows : List EmployeeRecord) : List (String × List Int) :=
  rows.foldl
    (fun acc row => insertWith (fun ss => ss ++ [row.salary]) acc row.department) []

/-- The salaries of exactly the records whose department field equals `d`, in
record order (the comparison target the claims speak about). -/
def deptSalaries (rows : List EmployeeRecord) (d : String) : List Int :=
  (rows.filter (fun r => r.department = d)).map (fun r => r.salary)

/-- Deduplication keeping the first occurrence of each key — the insertion
order of a Python dict built by a single pass. -/
def firstOccurrenceOrder (keys : List String) : List String :=
  keys.foldl (fun ks k => if k ∈ ks then ks else ks ++ [k]) []

/-- Failure propagation for `Option`: `none` short-circuits. -/
def bindO {α β : Type} (x : Option α) (f : α → Option β) : Option β :=
  match x with
  | none => none
  | some a => f a

/-- Python `min()` over a list: raises (`none`) on the empty list. -/
def pyListMin : List Int → Option Int
  | [] => none
  | x :: xs => some (xs.foldl min x)

/-- Python `max()` over a list: raises (`none`) on the empty list. -/
def pyListMax : List Int → Option Int
  | [] => none
  | x :: xs => some (xs.foldl max x)

/-- One `DepartmentSummary` from one `salaries_by_department` item:
`headcount = len`, `min_salary = min`, `max_salary = max`,
`avg_salary = sum / len` by true division.  `none` models the `ValueError`
Python's `min()`/`max()` raise on an empty salary list (never reached from
the builder, as proved below). -/
def summarizePair (p : String × List Int) : Option DepartmentSummary :=
  bindO (pyListMin p.2) fun mn =>
  bindO (pyListMax p.2) fun mx =>
  some { name := p.1, headcount := p.2.length, min_salary := mn,
         max_salary := mx,
         avg_salary := (p.2.sum : ℚ) / (p.2.length : ℚ) }

/-- Left-to-right map over `Option`, aborting at the first failure (the list
comprehension in `build_department_summaries`). -/
def mapOptionList {α β : Type} (f : α → Option β) : List α → Option (List β)
  | [] => some []
  | a :: as =>
    bindO (f a) fun b =>
    bindO (mapOptionList f as) fun bs =>
    some (b :: bs)

/-- `build_department_summaries`: one summary per `salaries_by_department`
item, in dict (first-occurrence) order. -/
def build_department_summaries (rows : List EmployeeRecord) :
    Option (List DepartmentSummary) :=
  mapOptionList summarizePair (salariesByDepartment rows)

/-- One-decimal rounding applied by the display format `:.1f`.  (Python
formats the binary float with ties to even; on the exact rational value this
is modelled with Mathlib `round`; no claim depends on tie behaviour.) -/
def roundTo1 (q : ℚ) : ℚ := ((round (q * 10) : ℤ) : ℚ) / 10

/-- The data `print_department_summaries` displays for each summary: name,
headcount, min and max exactly as stored, and the average rounded to one
decimal place by the `:.1f` format.  The summaries themselves are read, not
modified. -/
def print_department_summaries (summaries : List DepartmentSummary) :
    List (String × Nat × Int × Int × ℚ) :=
  summaries.map
    (fun s => (s.name, s.headcount, s.min_salary, s.max_salary,
               roundTo1 s.avg_salary))

/-- `DepartmentSummary._fields`: the namedtuple's field names in declaration
order, used by the persister as `fieldnames`. -/
def DepartmentSummary_fields : List String :=
  ["name", "headcount", "min_salary", "max_salary", "avg_salary"]

/-- The cells `csv.DictWriter.writerow` receives for one summary
(`summary._asdict()`), in `fieldnames` order.  (Numeric cells are shown via
`toString`; Python's exact float repr is not reproduced — no claim depends on
the digits of a cell.) -/
def summaryRow (s : DepartmentSummary) : List String :=
  [s.name, toString s.headcount, toString s.min_salary, toString s.max_salary,
   toString s.avg_salary]

/-- The delimited table a writer emits: its field delimiter, its header row
and its data rows. -/
structure CsvOutput where
  delimiter : Char
  header : List String
  rows : List (List String)
deriving DecidableEq

/-- `write_department_summaries`: the table written to the output file.  The
`csv.DictWriter` is constructed without a `delimiter` argument, so it uses
the csv module default `','` — not the module constant `DELIMITER` the
reader uses.  Header from `DepartmentSummary._fields`, then one row per
summary in list order. -/
def write_department_summaries (summaries : List DepartmentSummary) : CsvOutput :=
  { delimiter := ','
    header := DepartmentSummary_fields
    rows := summaries.map summaryRow }

/-! ### Basic reduction lemmas -/

@[simp]
theorem bindE_error {ε α β : Type} (e : ε) (f : α → Except ε β) :
    bindE (Except.error e) f = Except.error e := rfl

@[simp]
theorem bindE_ok {ε α β : Type} (a : α) (f : α → Except ε β) :
    bindE (Except.ok a) f = f a := rfl

@[simp]
theorem bindO_none {α β : Type} (f : α → Option β) : bindO none f = none := rfl

@[simp]
theorem bindO_some {α β : Type} (a : α) (f : α → Option β) :
    bindO (some a) f = f a := rfl

@[simp]
theorem optToExcept_none {α : Type} :
    optToExcept (none : Option α) = Except.error LoadError.valueError := rfl

@[simp]
theorem optToExcept_some {α : Type} (a : α) :
    optToExcept (some a) = Except.ok a := rfl

theorem deptSalaries_nil (d : String) : deptSalaries [] d = [] := rfl

theorem deptSalaries_cons (r : EmployeeRecord) (rs : List EmployeeRecord)
    (d : String) :
    deptSalaries (r :: rs) d =
      if r.department = d then r.salary :: deptSalaries rs d
      else deptSalaries rs d := by
  by_cases h : r.department = d <;> simp [deptSalaries, List.filter_cons, h]

/-! ### Association-list lemmas for the `defaultdict` groupings -/

theorem lookupKey_insertWith {β : Type} (f : List β → List β)
    (m : List (String × List β)) (key d : String) :
    lookupKey (insertWith f m key) d =
      if d = key then some (f ((lookupKey m d).getD []))
      else lookupKey m d := by
  induction m with
  | nil =>
    by_cases h : d = key
    · subst h; simp [insertWith, lookupKey]
    · simp [insertWith, lookupKey, h, Ne.symm h]
  | cons p rest ih =>
    obtain ⟨k, vs⟩ := p
    by_cases hk : k = key
    · subst hk
      by_cases hd : d = k
      · subst hd; simp [insertWith, lookupKey]
      · simp [insertWith, lookupKey, hd, Ne.symm hd]
    · by_cases hd : d = k
      · subst hd
        have hne : ¬d = key := fun h => hk h
        simp [insertWith, lookupKey, hk, hne]
      · simp [insertWith, lookupKey, hk, Ne.symm hd, hd, ih]

theorem map_fst_insertWith {β : Type} (f : List β → List β)
    (m : List (String × List β)) (key : String) :
    (insertWith f m key).map Prod.fst =
      if key ∈ m.map Prod.fst then m.map Prod.fst
      else m.map Prod.fst ++ [key] := by
  induction m with
  | nil => simp [insertWith]
  | cons p rest ih =>
    obtain ⟨k, vs⟩ := p
    by_cases hk : k = key
    · subst hk; simp [insertWith]
    · simp only [insertWith, if_neg hk, List.map_cons, List.mem_cons]
      rw [ih]
      by_cases hmem : key ∈ rest.map Prod.fst
      · simp [hmem, Ne.symm hk]
      · simp [hmem, Ne.symm hk]

theorem nodup_map_fst_insertWith {β : Type} (f : List β → List β)
    (m : List (String × List β)) (key : String)
    (h : (m.map Prod.fst).Nodup) :
    ((insertWith f m key).map Prod.fst).Nodup := by
  rw [map_fst_insertWith]
  by_cases hmem : key ∈ m.map Prod.fst
  · simpa [hmem] using h
  · simp [hmem, List.nodup_append, h]

theorem lookupKey_eq_some_of_mem {β : Type} :
    ∀ {m : List (String × β)} {d : String} {v : β},
      (m.map Prod.fst).Nodup → (d, v) ∈ m → lookupKey m d = some v
  | [], _, _, _, hm => by simp at hm
  | (k, w) :: rest, d, v, hnd, hm => by
    simp only [List.map_cons, List.nodup_cons] at hnd
    rcases List.mem_cons.mp hm with h | h
    · obtain ⟨h1, h2⟩ := Prod.mk.injEq d v k w ▸ h
      subst h1; subst h2
      simp [lookupKey]
    · have hk : k ≠ d := by
        intro hkd
        subst hkd
        exact hnd.1 (List.mem_map.mpr ⟨(k, v), h, rfl⟩)
      simp [lookupKey, hk, lookupKey_eq_some_of_mem hnd.2 h]

theorem mem_of_lookupKey_eq_some {β : Type} :
    ∀ {m : List (String × β)} {d : String} {v : β},
      lookupKey m d = some v → (d, v) ∈ m
  | [], _, _, h => by simp [lookupKey] at h
  | (k, w) :: rest, d, v, h => by
    by_cases hk : k = d
    · subst hk
      simp only [lookupKey, if_true, eq_self_iff_true, Option.some.injEq] at h
      subst h
      exact List.mem_cons_self _ _
    · simp only [lookupKey, if_neg hk] at h
      exact List.mem_cons_of_mem _ (mem_of_lookupKey_eq_some h)

/-! ### Keys of a single-pass grouping fold -/

theorem map_fst_foldl_insertWith {ρ β : Type} (K : ρ → String)
    (F : ρ → List β → List β) :
    ∀ (rows : List ρ) (acc : List (String × List β)),
      ((rows.foldl (fun a r => insertWith (F r) a (K r)) acc).map Prod.fst) =
        rows.foldl (fun ks r => if K r ∈ ks then ks else ks ++ [K r])
          (acc.map Prod.fst)
  | [], acc => rfl
  | r :: rs, acc => by
    simp only [List.foldl_cons]
    rw [map_fst_foldl_insertWith K F rs, map_fst_insertWith]

theorem nodup_map_fst_foldl_insertWith {ρ β : Type} (K : ρ → String)
    (F : ρ → List β → List β) :
    ∀ (rows : List ρ) (acc : List (String × List β)),
      (acc.map Prod.fst).Nodup →
      ((rows.foldl (fun a r => insertWith (F r) a (K r)) acc).map Prod.fst).Nodup
  | [], _, h => h
  | r :: rs, acc, h => by
    simp only [List.foldl_cons]
    exact nodup_map_fst_foldl_insertWith K F rs _
      (nodup_map_fst_insertWith (F r) acc (K r) h)

theorem foldl_firstOcc_aux :
    ∀ (keys : List String) (acc : List String), acc.Nodup →
      (keys.foldl (fun ks k => if k ∈ ks then ks else ks ++ [k]) acc).Nodup ∧
      ∀ d, d ∈ keys.foldl (fun ks k => if k ∈ ks then ks else ks ++ [k]) acc ↔
        (d ∈ acc ∨ d ∈ keys)
  | [], acc, h => ⟨h, by simp⟩
  | k :: ks, acc, h => by
    simp only [List.foldl_cons]
    by_cases hk : k ∈ acc
    · simp only [if_pos hk]
      obtain ⟨h1, h2⟩ := foldl_firstOcc_aux ks acc h
      refine ⟨h1, fun d => ?_⟩
      rw [h2 d, List.mem_cons]
      constructor
      · rintro (hd | hd)
        · exact Or.inl hd
        · exact Or.inr (Or.inr hd)
      · rintro (hd | rfl | hd)
        · exact Or.inl hd
        · exact Or.inl hk
        · exact Or.inr hd
    · simp only [if_neg hk]
      have hnd : (acc ++ [k]).Nodup := by
        simp [List.nodup_append, h, hk]
      obtain ⟨h1, h2⟩ := foldl_firstOcc_aux ks (acc ++ [k]) hnd
      refine ⟨h1, fun d => ?_⟩
      rw [h2 d, List.mem_append, List.mem_singleton, List.mem_cons]
      tauto

theorem nodup_firstOccurrenceOrder (keys : List String) :
    (firstOccurrenceOrder keys).Nodup :=
  (foldl_firstOcc_aux keys [] List.nodup_nil).1

theorem mem_firstOccurrenceOrder (keys : List String) (d : String) :
    d ∈ firstOccurrenceOrder keys ↔ d ∈ keys := by
  have h := (foldl_firstOcc_aux keys [] List.nodup_nil).2 d
  simpa [firstOccurrenceOrder] using h

theorem map_fst_salariesByDepartment (rows : List EmployeeRecord) :
    (salariesByDepartment rows).map Prod.fst =
      firstOccurrenceOrder (rows.map (fun r => r.department)) := by
  have h := map_fst_foldl_insertWith (fun r : EmployeeRecord => r.department)
    (fun r ss => ss ++ [r.salary]) rows []
  simpa [salariesByDepartment, firstOccurrenceOrder, List.foldl_map] using h

theorem map_fst_company_hierarchy (rows : List EmployeeRecord) :
    (company_hierarchy rows).map Prod.fst =
      firstOccurrenceOrder (rows.map (fun r => r.department)) := by
  have h := map_fst_foldl_insertWith (fun r : EmployeeRecord => r.department)
    (fun r ts => if r.team ∈ ts then ts else ts ++ [r.team]) rows []
  simpa [company_hierarchy, firstOccurrenceOrder, List.foldl_map] using h

theorem nodupKeys_salariesByDepartment (rows : List EmployeeRecord) :
    ((salariesByDepartment rows).map Prod.fst).Nodup :=
  nodup_map_fst_foldl_insertWith (fun r : EmployeeRecord => r.department)
    (fun r ss => ss ++ [r.salary]) rows [] (by simp)

/-! ### What each department maps to in `salaries_by_department` -/

theorem lookupKey_salariesFold_some (rows : List EmployeeRecord) :
    ∀ (acc : List (String × List Int)) (d : String) (v : List Int),
      lookupKey acc d = some v →
      lookupKey
        (rows.foldl
          (fun a r => insertWith (fun ss => ss ++ [r.salary]) a r.department)
          acc) d
        = some (v ++ deptSalaries rows d)
  | acc, d, v, h => by
    induction rows generalizing acc v with
    | nil => simpa [deptSalaries] using h
    | cons r rs ih =>
      simp only [List.foldl_cons]
      rw [deptSalaries_cons]
      by_cases hd : r.department = d
      · have h' :
            lookupKey (insertWith (fun ss => ss ++ [r.salary]) acc r.department) d
              = some (v ++ [r.salary]) := by
          rw [lookupKey_insertWith, if_pos hd.symm, h]
          rfl
        have := ih _ _ h'
        rw [this, if_pos hd]
        simp
      · have h' :
            lookupKey (insertWith (fun ss => ss ++ [r.salary]) acc r.department) d
              = some v := by
          rw [lookupKey_insertWith, if_neg (fun hh => hd hh.symm)]
          exact h
        rw [ih _ _ h', if_neg hd]

theorem lookupKey_salariesFold_none (rows : List EmployeeRecord) :
    ∀ (acc : List (String × List Int)) (d : String),
      lookupKey acc d = none →
      lookupKey
        (rows.foldl
          (fun a r => insertWith (fun ss => ss ++ [r.salary]) a r.department)
          acc) d
        = if deptSalaries rows d = [] then none else some (deptSalaries rows d)
  | acc, d, h => by
    induction rows generalizing acc with
    | nil => simpa [deptSalaries] using h
    | cons r rs ih =>
      simp only [List.foldl_cons]
      rw [deptSalaries_cons]
      by_cases hd : r.department = d
      · have h' :
            lookupKey (insertWith (fun ss => ss ++ [r.salary]) acc r.department) d
              = some ([] ++ [r.salary]) := by
          rw [lookupKey_insertWith, if_pos hd.symm, h]
          rfl
        have := lookupKey_salariesFold_some rs _ _ _ h'
        rw [this, if_pos hd]
        simp
      · have h' :
            lookupKey (insertWith (fun ss => ss ++ [r.salary]) acc r.department) d
              = none := by
          rw [lookupKey_insertWith, if_neg (fun hh => hd hh.symm)]
          exact h
        rw [ih _ h', if_neg hd]

theorem lookupKey_salariesByDepartment (rows : List EmployeeRecord) (d : String) :
    lookupKey (salariesByDepartment rows) d =
      if deptSalaries rows d = [] then none
      else some (deptSalaries rows d) :=
  lookupKey_salariesFold_none rows [] d rfl

theorem mem_salariesByDepartment {rows : List EmployeeRecord} {d : String}
    {v : List Int} :
    (d, v) ∈ salariesByDepartment rows ↔
      (deptSalaries rows d ≠ [] ∧ v = deptSalaries rows d) := by
  constructor
  · intro hm
    have hl := lookupKey_eq_some_of_mem (nodupKeys_salariesByDepartment rows) hm
    rw [lookupKey_salariesByDepartment] at hl
    by_cases h : deptSalaries rows d = []
    · rw [if_pos h] at hl
      cases hl
    · rw [if_neg h] at hl
      exact ⟨h, (Option.some.injEq _ _ ▸ hl).symm⟩
  · rintro ⟨h1, rfl⟩
    apply mem_of_lookupKey_eq_some
    rw [lookupKey_salariesByDepartment, if_neg h1]

/-! ### The summary comprehension -/

theorem mapOptionList_forall2 {α β : Type} {f : α → Option β} :
    ∀ {as : List α} {bs : List β}, mapOptionList f as = some bs →
      List.Forall₂ (fun a b => f a = some b) as bs
  | [], bs, h => by
    simp only [mapOptionList, Option.some.injEq] at h
    subst h
    exact List.Forall₂.nil
  | a :: as, bs, h => by
    cases hfa : f a with
    | none => rw [mapOptionList, hfa] at h; cases h
    | some b =>
      cases hrec : mapOptionList f as with
      | none => rw [mapOptionList, hfa, hrec] at h; cases h
      | some bs0 =>
        rw [mapOptionList, hfa, hrec] at h
        simp only [bindO_some, Option.some.injEq] at h
        subst h
        exact List.Forall₂.cons hfa (mapOptionList_forall2 hrec)

theorem mapOptionList_total {α β : Type} {f : α → Option β} :
    ∀ (as : List α), (∀ a ∈ as, f a ≠ none) →
      ∃ bs, mapOptionList f as = some bs
  | [], _ => ⟨[], rfl⟩
  | a :: as, h => by
    cases hfa : f a with
    | none => exact absurd hfa (h a (List.mem_cons_self a as))
    | some b =>
      obtain ⟨bs, hbs⟩ :=
        mapOptionList_total as (fun a' ha' => h a' (List.mem_cons_of_mem a ha'))
      exact ⟨b :: bs, by rw [mapOptionList, hfa, hbs]; rfl⟩

theorem forall2_mem_right {α β : Type} {R : α → β → Prop} {as : List α}
    {bs : List β} (h : List.Forall₂ R as bs) {b : β} (hb : b ∈ bs) :
    ∃ a ∈ as, R a b := by
  induction h with
  | nil => simp at hb
  | cons hR _ ih =>
    rcases List.mem_cons.mp hb with rfl | hb'
    · exact ⟨_, List.mem_cons_self _ _, hR⟩
    · obtain ⟨a, ha, hab⟩ := ih hb'
      exact ⟨a, List.mem_cons_of_mem _ ha, hab⟩

theorem summarizePair_nil (d : String) : summarizePair (d, []) = none := rfl

theorem summarizePair_cons (d : String) (x : Int) (xs : List Int) :
    summarizePair (d, x :: xs) =
      some { name := d, headcount := (x :: xs).length,
             min_salary := xs.foldl min x, max_salary := xs.foldl max x,
             avg_salary := ((x :: xs).sum : ℚ) / ((x :: xs).length : ℚ) } := rfl

theorem summarizePair_name {p : String × List Int} {s : DepartmentSummary}
    (h : summarizePair p = some s) : s.name = p.1 := by
  obtain ⟨d, v⟩ := p
  cases v with
  | nil => cases h
  | cons x xs =>
    rw [summarizePair_cons] at h
    have h' := Option.some.inj h
    rw [← h']

theorem forall2_map_name {as : List (String × List Int)}
    {bs : List DepartmentSummary}
    (h : List.Forall₂ (fun p s => summarizePair p = some s) as bs) :
    bs.map DepartmentSummary.name = as.map Prod.fst := by
  induction h with
  | nil => rfl
  | cons hR _ ih => simp [ih, summarizePair_name hR]

/-- Any summary in the builder's output is the summary of exactly the
salaries of its department's records. -/
theorem build_mem_elim {rows : List EmployeeRecord} {l : List DepartmentSummary}
    {s : DepartmentSummary} (hb : build_department_summaries rows = some l)
    (hs : s ∈ l) :
    deptSalaries rows s.name ≠ [] ∧
      summarizePair (s.name, deptSalaries rows s.name) = some s := by
  obtain ⟨p, hp, hps⟩ := forall2_mem_right (mapOptionList_forall2 hb) hs
  obtain ⟨d, v⟩ := p
  have hname : s.name = d := summarizePair_name hps
  obtain ⟨hne, hv⟩ := mem_salariesByDepartment.mp hp
  rw [hname]
  exact ⟨hne, hv ▸ hps⟩

/-! ### Folded `min`/`max` and sum bounds -/

theorem foldl_min_le_init : ∀ (xs : List Int) (x : Int), xs.foldl min x ≤ x
  | [], x => le_refl x
  | a :: xs, x =>
    le_trans (foldl_min_le_init xs (min x a)) (min_le_left x a)

theorem foldl_min_le_mem :
    ∀ (xs : List Int) (x y : Int), y ∈ xs → xs.foldl min x ≤ y
  | [], _, _, h => absurd h (List.not_mem_nil _)
  | a :: xs, x, y, h => by
    rcases List.mem_cons.mp h with rfl | h'
    · exact le_trans (foldl_min_le_init xs (min x y)) (min_le_right x y)
    · exact foldl_min_le_mem xs (min x a) y h'

theorem foldl_min_mem :
    ∀ (xs : List Int) (x : Int), xs.foldl min x = x ∨ xs.foldl min x ∈ xs
  | [], _ => Or.inl rfl
  | a :: xs, x => by
    rcases foldl_min_mem xs (min x a) with h | h
    · rcases min_choice x a with h' | h'
      · exact Or.inl (by rw [List.foldl_cons, h, h'])
      · refine Or.inr ?_
        rw [List.foldl_cons, h, h']
        exact List.mem_cons_self a xs
    · exact Or.inr (List.mem_cons_of_mem a h)

theorem init_le_foldl_max : ∀ (xs : List Int) (x : Int), x ≤ xs.foldl max x
  | [], x => le_refl x
  | a :: xs, x =>
    le_trans (le_max_left x a) (init_le_foldl_max xs (max x a))

theorem mem_le_foldl_max :
    ∀ (xs : List Int) (x y : Int), y ∈ xs → y ≤ xs.foldl max x
  | [], _, _, h => absurd h (List.not_mem_nil _)
  | a :: xs, x, y, h => by
    rcases List.mem_cons.mp h with rfl | h'
    · exact le_trans (le_max_right x y) (init_le_foldl_max xs (max x y))
    · exact mem_le_foldl_max xs (max x a) y h'

theorem foldl_max_mem :
    ∀ (xs : List Int) (x : Int), xs.foldl max x = x ∨ xs.foldl max x ∈ xs
  | [], _ => Or.inl rfl
  | a :: xs, x => by
    rcases foldl_max_mem xs (max x a) with h | h
    · rcases max_choice x a with h' | h'
      · exact Or.inl (by rw [List.foldl_cons, h, h'])
      · refine Or.inr ?_
        rw [List.foldl_cons, h, h']
        exact List.mem_cons_self a xs
    · exact Or.inr (List.mem_cons_of_mem a h)

theorem length_mul_le_sum :
    ∀ (l : List Int) (m : Int), (∀ y ∈ l, m ≤ y) →
      (l.length : Int) * m ≤ l.sum
  | [], m, _ => by simp
  | a :: l, m, h => by
    have h1 : m ≤ a := h a (List.mem_cons_self a l)
    have h2 := length_mul_le_sum l m (fun y hy => h y (List.mem_cons_of_mem a hy))
    simp only [List.sum_cons, List.length_cons]
    have h3 : ((l.length + 1 : Nat) : Int) * m = (l.length : Int) * m + m := by
      push_cast
      ring
    rw [h3]
    linarith

theorem sum_le_length_mul :
    ∀ (l : List Int) (m : Int), (∀ y ∈ l, y ≤ m) →
      l.sum ≤ (l.length : Int) * m
  | [], m, _ => by simp
  | a :: l, m, h => by
    have h1 : a ≤ m := h a (List.mem_cons_self a l)
    have h2 := sum_le_length_mul l m (fun y hy => h y (List.mem_cons_of_mem a hy))
    simp only [List.sum_cons, List.length_cons]
    have h3 : ((l.length + 1 : Nat) : Int) * m = (l.length : Int) * m + m := by
      push_cast
      ring
    rw [h3]
    linarith

/-! ### Loader lemmas -/

theorem fieldIndex_eq_none {header : List String} {field : String} :
    fieldIndex header field = none ↔ field ∉ header := by
  induction header with
  | nil => simp [fieldIndex]
  | cons h hs ih =>
    by_cases hh : h = field
    · subst hh; simp [fieldIndex]
    · simp [fieldIndex, hh, Option.map_eq_none', ih, Ne.symm hh]

theorem mem_header_of_lookup_ok {header row : List String} {field s : String}
    (h : dictReaderLookup header row field = Except.ok s) : field ∈ header := by
  by_contra hmem
  rw [dictReaderLookup, fieldIndex_eq_none.mpr hmem] at h
  cases h

theorem parseRow_ok_header {header row : List String} {rec : EmployeeRecord}
    (h : parseRow header row = Except.ok rec) :
    ∀ f ∈ requiredFieldNames, f ∈ header := by
  rw [parseRow] at h
  cases e1 : dictReaderLookup header row FULL_NAME_FIELD with
  | error e => rw [e1] at h; cases h
  | ok s1 =>
  rw [e1, bindE_ok] at h
  cases e2 : dictReaderLookup header row DEPARTMENT_FIELD with
  | error e => rw [e2] at h; cases h
  | ok s2 =>
  rw [e2, bindE_ok] at h
  cases e3 : dictReaderLookup header row TEAM_FIELD with
  | error e => rw [e3] at h; cases h
  | ok s3 =>
  rw [e3, bindE_ok] at h
  cases e4 : dictReaderLookup header row RATING_FIELD with
  | error e => rw [e4] at h; cases h
  | ok s4 =>
  rw [e4, bindE_ok] at h
  cases e5 : dictReaderLookup header row SALARY_FIELD with
  | error e =>
    rw [e5] at h
    cases hq : parsePyFloat s4 with
    | none => rw [hq] at h; cases h
    | some q => rw [hq] at h; cases h
  | ok s5 =>
  intro f hf
  simp only [requiredFieldNames, REQUIRED_FIELDS, List.map_cons, List.map_nil,
    List.mem_cons, List.not_mem_nil, or_false] at hf
  rcases hf with rfl | rfl | rfl | rfl | rfl
  · exact mem_header_of_lookup_ok e1
  · exact mem_header_of_lookup_ok e2
  · exact mem_header_of_lookup_ok e3
  · exact mem_header_of_lookup_ok e4
  · exact mem_header_of_lookup_ok e5

theorem parseRow_error_of_missing {header : List String} (row : List String)
    (h : ∃ f ∈ requiredFieldNames, f ∉ header) :
    ∃ e, parseRow header row = Except.error e := by
  cases hp : parseRow header row with
  | error e => exact ⟨e, rfl⟩
  | ok rec =>
    obtain ⟨f, hf, hnot⟩ := h
    exact absurd (parseRow_ok_header hp f hf) hnot

theorem mapExcept_error_head {ε α β : Type} {f : α → Except ε β} {a : α}
    {as : List α} {e : ε} (h : f a = Except.error e) :
    mapExcept f (a :: as) = Except.error e := by
  rw [mapExcept, h, bindE_error]

theorem mapExcept_ne_ok_of_error {ε α β : Type} {f : α → Except ε β} :
    ∀ (as : List α), (∃ a ∈ as, ∃ e, f a = Except.error e) →
      ∀ bs, mapExcept f as ≠ Except.ok bs
  | [], h, _ => by simp at h
  | a :: as, h, bs => by
    intro hok
    obtain ⟨a0, ha0, e0, he0⟩ := h
    cases hfa : f a with
    | error e => rw [mapExcept_error_head hfa] at hok; cases hok
    | ok b =>
      rcases List.mem_cons.mp ha0 with rfl | ha0'
      · rw [hfa] at he0; cases he0
      · cases hrec : mapExcept f as with
        | error e => rw [mapExcept, hfa, bindE_ok, hrec, bindE_error] at hok; cases hok
        | ok bs0 =>
          exact mapExcept_ne_ok_of_error as ⟨a0, ha0', e0, he0⟩ bs0 hrec

theorem mapExcept_ok_of_forall {ε α β : Type} {f : α → Except ε β} :
    ∀ (as : List α), (∀ a ∈ as, ∃ b, f a = Except.ok b) →
      ∃ bs, mapExcept f as = Except.ok bs ∧
        List.Forall₂ (fun a b => f a = Except.ok b) as bs
  | [], _ => ⟨[], rfl, List.Forall₂.nil⟩
  | a :: as, h => by
    obtain ⟨b, hb⟩ := h a (List.mem_cons_self a as)
    obtain ⟨bs, hbs, hf⟩ :=
      mapExcept_ok_of_forall as (fun a' ha' => h a' (List.mem_cons_of_mem a ha'))
    refine ⟨b :: bs, ?_, List.Forall₂.cons hb hf⟩
    rw [mapExcept, hb, bindE_ok, hbs, bindE_ok]

/-! ### Concrete data for witnesses -/

/-- A small record list: three departments' worth of employees would be
overkill; two departments, one with three salaries. -/
def rowsExample : List EmployeeRecord :=
  [⟨"Alice", "Eng", "Core", 9/2, 100⟩,
   ⟨"Bob", "Eng", "Infra", 4, 150⟩,
   ⟨"Carol", "Eng", "Core", 7/2, 225⟩,
   ⟨"Dave", "Sales", "EMEA", 3, 150⟩]

/-- The summaries the builder produces from `rowsExample`. -/
def summariesExample : List DepartmentSummary :=
  [⟨"Eng", 3, 100, 225, 475/3⟩, ⟨"Sales", 1, 150, 150, 150⟩]

/-- The first summary of `summariesExample`. -/
def engSummary : DepartmentSummary := ⟨"Eng", 3, 100, 225, 475/3⟩

/-- A header containing every required field (and the unused position
column, which the loader ignores). -/
def fullHeader : List String :=
  [FULL_NAME_FIELD, DEPARTMENT_FIELD, TEAM_FIELD, POSITION_FIELD,
   RATING_FIELD, SALARY_FIELD]

/-- An input whose every cell coerces. -/
def goodInput : RawInput :=
  { header := fullHeader
    rows := [["Alice", "Eng", "Core", "Dev", "4", "100"],
             ["Bob", "Sales", "EMEA", "Mgr", "3", "150"]] }

/-- The same input with one non-numeric salary cell in its second row. -/
def badCoercionInput : RawInput :=
  { header := fullHeader
    rows := [["Alice", "Eng", "Core", "Dev", "4", "100"],
             ["Bob", "Sales", "EMEA", "Mgr", "3", "abc"]] }

/-- A header missing the required salary column. -/
def headerMissingSalary : List String :=
  [FULL_NAME_FIELD, DEPARTMENT_FIELD, TEAM_FIELD, RATING_FIELD]

/-- Header-only input (no data rows) missing the salary column. -/
def missingColumnEmptyInput : RawInput := ⟨headerMissingSalary, []⟩

/-- Input missing the salary column, with one data row. -/
def missingColumnInput : RawInput :=
  ⟨headerMissingSalary, [["Alice", "Eng", "Core", "4.5"]]⟩

/-! ### The claims -/

/-- Claim C1, counterexample: the claim says the summary persister writes
with the same delimiter convention as the input (`DELIMITER`, the default
`';'`); but on this concrete summary list the written delimiter is not
`DELIMITER`, because `csv.DictWriter` is constructed without a delimiter
argument and so uses the csv default `','`. -/
theorem claim_C1_counterexample :
    (write_department_summaries [engSummary]).delimiter ≠ DELIMITER := by
  decide

/-- Claim C1 (amended): the summary persister writes a delimited table using
the csv module's default comma delimiter (not the input's `';'` convention),
whose header row contains exactly the five field names name, headcount,
min_salary, max_salary, avg_salary in that fixed order, followed by one data
row per department preserving the summary list's order. -/
theorem claim_C1_amended (summaries : List DepartmentSummary) :
    (write_department_summaries summaries).delimiter = ',' ∧
      (write_department_summaries summaries).delimiter ≠ DELIMITER ∧
      (write_department_summaries summaries).header =
        ["name", "headcount", "min_salary", "max_salary", "avg_salary"] ∧
      (write_department_summaries summaries).rows = summaries.map summaryRow := by
  refine ⟨rfl, ?_, rfl, rfl⟩
  show (',' : Char) ≠ DELIMITER
  decide

/-- Claim C2 (amended): if the header is missing a required schema field,
then with at least one data row the load fails with an error and produces no
records (the `KeyError` for the missing column, unless an earlier field's
cell fails coercion first — modelled jointly by `∃ e`); with zero data rows
the lazy `csv.DictReader` never touches the schema and the load succeeds
with the empty record list. -/
theorem claim_C2_amended (input : RawInput)
    (hmiss : ∃ f ∈ requiredFieldNames, f ∉ input.header) :
    (input.rows = [] → read_input_file input = Except.ok []) ∧
      (input.rows ≠ [] → ∃ e, read_input_file input = Except.error e) := by
  constructor
  · intro h
    rw [read_input_file, h]
    rfl
  · intro h
    obtain ⟨r, rs, hr⟩ := List.exists_cons_of_ne_nil h
    obtain ⟨e, he⟩ := parseRow_error_of_missing r hmiss
    refine ⟨e, ?_⟩
    rw [read_input_file, hr]
    exact mapExcept_error_head he

/-- Claim C2, counterexample: an input whose header is missing the required
salary field but which has no data rows loads successfully (an empty record
list), rather than failing with a schema error as the claim states for
every such input. -/
theorem claim_C2_counterexample :
    (∃ f ∈ requiredFieldNames, f ∉ missingColumnEmptyInput.header) ∧
      read_input_file missingColumnEmptyInput = Except.ok [] :=
  ⟨⟨SALARY_FIELD, by decide, by decide⟩, rfl⟩

/-- Claim C2, witness: the amended claim applied to the header-only input
and to the one-row input, both missing the salary column. -/
theorem claim_C2_witness :
    ((missingColumnEmptyInput.rows = [] →
        read_input_file missingColumnEmptyInput = Except.ok []) ∧
      (missingColumnEmptyInput.rows ≠ [] →
        ∃ e, read_input_file missingColumnEmptyInput = Except.error e)) ∧
    ((missingColumnInput.rows = [] →
        read_input_file missingColumnInput = Except.ok []) ∧
      (missingColumnInput.rows ≠ [] →
        ∃ e, read_input_file missingColumnInput = Except.error e)) :=
  ⟨claim_C2_amended missingColumnEmptyInput ⟨SALARY_FIELD, by decide, by decide⟩,
   claim_C2_amended missingColumnInput ⟨SALARY_FIELD, by decide, by decide⟩⟩

/-- Claim C3: every department summary the salary summary builder produces
satisfies min_salary ≤ avg_salary ≤ max_salary, where avg_salary is the
arithmetic mean sum/count of that department's salaries. -/
theorem claim_C3 (rows : List EmployeeRecord) (l : List DepartmentSummary)
    (hb : build_department_summaries rows = some l)
    (s : DepartmentSummary) (hs : s ∈ l) :
    ((s.min_salary : ℚ) ≤ s.avg_salary ∧ s.avg_salary ≤ (s.max_salary : ℚ)) ∧
      s.avg_salary = ((deptSalaries rows s.name).sum : ℚ) /
        ((deptSalaries rows s.name).length : ℚ) := by
  obtain ⟨hne, hps⟩ := build_mem_elim hb hs
  obtain ⟨x, xs, hD⟩ := List.exists_cons_of_ne_nil hne
  rw [hD, summarizePair_cons] at hps
  have hrec := Option.some.inj hps
  rw [hD, ← hrec]
  have hminle : ∀ y ∈ x :: xs, xs.foldl min x ≤ y := by
    intro y hy
    rcases List.mem_cons.mp hy with rfl | hy'
    · exact foldl_min_le_init xs y
    · exact foldl_min_le_mem xs x y hy'
  have hmaxle : ∀ y ∈ x :: xs, y ≤ xs.foldl max x := by
    intro y hy
    rcases List.mem_cons.mp hy with rfl | hy'
    · exact init_le_foldl_max xs y
    · exact mem_le_foldl_max xs x y hy'
  have hsum1 : ((x :: xs).length : Int) * (xs.foldl min x) ≤ (x :: xs).sum :=
    length_mul_le_sum _ _ hminle
  have hsum2 : (x :: xs).sum ≤ ((x :: xs).length : Int) * (xs.foldl max x) :=
    sum_le_length_mul _ _ hmaxle
  have hlen : (0 : ℚ) < ((x :: xs).length : ℚ) := by
    simp only [List.length_cons]
    exact_mod_cast Nat.succ_pos xs.length
  refine ⟨⟨?_, ?_⟩, rfl⟩
  · show ((xs.foldl min x : Int) : ℚ) ≤
      ((x :: xs).sum : ℚ) / ((x :: xs).length : ℚ)
    rw [le_div_iff₀ hlen]
    have hc : (((x :: xs).length : Int) : ℚ) * ((xs.foldl min x : Int) : ℚ) ≤
        (((x :: xs).sum : Int) : ℚ) := by
      exact_mod_cast hsum1
    push_cast at hc ⊢
    linarith
  · show ((x :: xs).sum : ℚ) / ((x :: xs).length : ℚ) ≤
      ((xs.foldl max x : Int) : ℚ)
    rw [div_le_iff₀ hlen]
    have hc : (((x :: xs).sum : Int) : ℚ) ≤
        (((x :: xs).length : Int) : ℚ) * ((xs.foldl max x : Int) : ℚ) := by
      exact_mod_cast hsum2
    push_cast at hc ⊢
    linarith

/-- Claim C3, witness: the theorem applied to `rowsExample` and the Eng
summary, whose average is 475/3. -/
theorem claim_C3_witness :
    (build_department_summaries rowsExample = some summariesExample ∧
        engSummary ∈ summariesExample) ∧
      ((engSummary.min_salary : ℚ) ≤ engSummary.avg_salary ∧
          engSummary.avg_salary ≤ (engSummary.max_salary : ℚ)) ∧
        engSummary.avg_salary =
          ((deptSalaries rowsExample engSummary.name).sum : ℚ) /
            ((deptSalaries rowsExample engSummary.name).length : ℚ) :=
  ⟨⟨by norm_num [build_department_summaries, salariesByDepartment, insertWith,
      mapOptionList, summarizePair, pyListMin, pyListMax, rowsExample,
      summariesExample],
    by simp [engSummary, summariesExample]⟩,
   claim_C3 rowsExample summariesExample
    (by norm_num [build_department_summaries, salariesByDepartment, insertWith,
      mapOptionList, summarizePair, pyListMin, pyListMax, rowsExample,
      summariesExample])
    engSummary (by simp [engSummary, summariesExample])⟩

/-- Claim C4: for every record list and every department in the builder's
output, headcount equals the number of input records whose department field
equals that department, and min_salary/max_salary are the minimum/maximum of
exactly those records' salaries. -/
theorem claim_C4 (rows : List EmployeeRecord) (l : List DepartmentSummary)
    (hb : build_department_summaries rows = some l)
    (s : DepartmentSummary) (hs : s ∈ l) :
    s.headcount = (rows.filter (fun r => r.department = s.name)).length ∧
      s.min_salary ∈ deptSalaries rows s.name ∧
      (∀ y ∈ deptSalaries rows s.name, s.min_salary ≤ y) ∧
      s.max_salary ∈ deptSalaries rows s.name ∧
      (∀ y ∈ deptSalaries rows s.name, y ≤ s.max_salary) := by
  obtain ⟨hne, hps⟩ := build_mem_elim hb hs
  obtain ⟨x, xs, hD⟩ := List.exists_cons_of_ne_nil hne
  rw [hD, summarizePair_cons] at hps
  have hrec := Option.some.inj hps
  have hlenfil : (deptSalaries rows s.name).length =
      (rows.filter (fun r => r.department = s.name)).length :=
    List.length_map _ _
  have hshead : s.headcount = (x :: xs).length := by rw [← hrec]
  have hsmin : s.min_salary = xs.foldl min x := by rw [← hrec]
  have hsmax : s.max_salary = xs.foldl max x := by rw [← hrec]
  refine ⟨?_, ?_, ?_, ?_, ?_⟩
  · rw [hshead, ← hD, hlenfil]
  · rw [hsmin, hD]
    rcases foldl_min_mem xs x with h | h
    · rw [h]
      exact List.mem_cons_self x xs
    · exact List.mem_cons_of_mem x h
  · rw [hsmin, hD]
    intro y hy
    rcases List.mem_cons.mp hy with rfl | hy'
    · exact foldl_min_le_init xs y
    · exact foldl_min_le_mem xs x y hy'
  · rw [hsmax, hD]
    rcases foldl_max_mem xs x with h | h
    · rw [h]
      exact List.mem_cons_self x xs
    · exact List.mem_cons_of_mem x h
  · rw [hsmax, hD]
    intro y hy
    rcases List.mem_cons.mp hy with rfl | hy'
    · exact init_le_foldl_max xs y
    · exact mem_le_foldl_max xs x y hy'

/-- Claim C4, witness: the theorem applied to `rowsExample` and its Eng
summary (headcount 3, min 100, max 225). -/
theorem claim_C4_witness :
    (build_department_summaries rowsExample = some summariesExample ∧
        engSummary ∈ summariesExample) ∧
      engSummary.headcount =
          (rowsExample.filter (fun r => r.department = engSummary.name)).length ∧
        engSummary.min_salary ∈ deptSalaries rowsExample engSummary.name ∧
        (∀ y ∈ deptSalaries rowsExample engSummary.name,
          engSummary.min_salary ≤ y) ∧
        engSummary.max_salary ∈ deptSalaries rowsExample engSummary.name ∧
        (∀ y ∈ deptSalaries rowsExample engSummary.name,
          y ≤ engSummary.max_salary) :=
  ⟨⟨by norm_num [build_department_summaries, salariesByDepartment, insertWith,
      mapOptionList, summarizePair, pyListMin, pyListMax, rowsExample,
      summariesExample],
    by simp [engSummary, summariesExample]⟩,
   claim_C4 rowsExample summariesExample
    (by norm_num [build_department_summaries, salariesByDepartment, insertWith,
      mapOptionList, summarizePair, pyListMin, pyListMax, rowsExample,
      summariesExample])
    engSummary (by simp [engSummary, summariesExample])⟩

/-- Claim C5: for every record list, the set of department names the
hierarchy builder produces equals the set of department names for which the
salary summary builder produces a summary. -/
theorem claim_C5 (rows : List EmployeeRecord) (l : List DepartmentSummary)
    (hb : build_department_summaries rows = some l) (d : String) :
    d ∈ (company_hierarchy rows).map Prod.fst ↔
      d ∈ l.map DepartmentSummary.name := by
  rw [map_fst_company_hierarchy,
    forall2_map_name (mapOptionList_forall2 hb),
    map_fst_salariesByDepartment]

/-- Claim C5, witness: on `rowsExample` the department "Eng" is a hierarchy
key exactly when it is a summary name. -/
theorem claim_C5_witness :
    build_department_summaries rowsExample = some summariesExample ∧
      ("Eng" ∈ (company_hierarchy rowsExample).map Prod.fst ↔
        "Eng" ∈ summariesExample.map DepartmentSummary.name) :=
  ⟨by norm_num [build_department_summaries, salariesByDepartment, insertWith,
      mapOptionList, summarizePair, pyListMin, pyListMax, rowsExample,
      summariesExample],
   claim_C5 rowsExample summariesExample
    (by norm_num [build_department_summaries, salariesByDepartment, insertWith,
      mapOptionList, summarizePair, pyListMin, pyListMax, rowsExample,
      summariesExample])
    "Eng"⟩

/-- Claim C6: loading is all-or-nothing — if any row of the input fails to
parse with a coercion (`ValueError`) failure, the load returns no partial
record sequence; and if every row parses, the load returns exactly one typed
record per data row, in file row order. -/
theorem claim_C6 (input : RawInput) :
    ((∃ row ∈ input.rows,
        parseRow input.header row = Except.error LoadError.valueError) →
      ∀ recs, read_input_file input ≠ Except.ok recs) ∧
    ((∀ row ∈ input.rows, ∃ rec, parseRow input.header row = Except.ok rec) →
      ∃ recs, read_input_file input = Except.ok recs ∧
        List.Forall₂ (fun row rec => parseRow input.header row = Except.ok rec)
          input.rows recs) := by
  constructor
  · rintro ⟨row, hrow, herr⟩ recs
    exact mapExcept_ne_ok_of_error input.rows ⟨row, hrow, _, herr⟩ recs
  · intro h
    exact mapExcept_ok_of_forall input.rows h

/-- Claim C6, witness: the theorem applied to an input with one bad salary
cell (no record list is returned) and to a fully coercible input (one record
per row, in order). -/
theorem claim_C6_witness :
    (∀ recs, read_input_file badCoercionInput ≠ Except.ok recs) ∧
      ∃ recs, read_input_file goodInput = Except.ok recs ∧
        List.Forall₂
          (fun row rec => parseRow goodInput.header row = Except.ok rec)
          goodInput.rows recs :=
  ⟨(claim_C6 badCoercionInput).1
      ⟨["Bob", "Sales", "EMEA", "Mgr", "3", "abc"], by decide, by decide⟩,
   (claim_C6 goodInput).2 (by
      intro row hrow
      simp only [goodInput, List.mem_cons, List.not_mem_nil, or_false] at hrow
      rcases hrow with rfl | rfl
      · exact ⟨⟨"Alice", "Eng", "Core", 4, 100⟩, by decide⟩
      · exact ⟨⟨"Bob", "Sales", "EMEA", 3, 150⟩, by decide⟩)⟩

/-- Claim C7: every department key of the builder's intermediate
per-department salary collection originates from at least one record, its
salary list is nonempty (so `min`/`max`/`sum/count` never see an empty list
and the division is never by zero, and the builder never raises), and no
summary with headcount 0 appears in the output. -/
theorem claim_C7 (rows : List EmployeeRecord) :
    (∀ p ∈ salariesByDepartment rows,
        p.2 ≠ [] ∧ ∃ r ∈ rows, r.department = p.1) ∧
      ∃ l, build_department_summaries rows = some l ∧
        ∀ s ∈ l, s.headcount ≠ 0 := by
  have hkey : ∀ p ∈ salariesByDepartment rows,
      p.2 ≠ [] ∧ ∃ r ∈ rows, r.department = p.1 := by
    rintro ⟨d, v⟩ hp
    obtain ⟨hne, hv⟩ := mem_salariesByDepartment.mp hp
    subst hv
    refine ⟨hne, ?_⟩
    have hfil : rows.filter (fun r => r.department = d) ≠ [] := by
      intro h0
      exact hne (by simp [deptSalaries, h0])
    obtain ⟨r, hr⟩ := List.exists_mem_of_ne_nil _ hfil
    have hrr := List.mem_filter.mp hr
    exact ⟨r, hrr.1, by simpa using hrr.2⟩
  refine ⟨hkey, ?_⟩
  have htot : ∀ p ∈ salariesByDepartment rows, summarizePair p ≠ none := by
    rintro ⟨d, v⟩ hp
    obtain ⟨hne, _⟩ := hkey ⟨d, v⟩ hp
    have hne' : v ≠ [] := hne
    obtain ⟨x, xs, hv⟩ := List.exists_cons_of_ne_nil hne'
    rw [show ((d, v) : String × List Int) = (d, x :: xs) by rw [hv],
      summarizePair_cons]
    intro hh
    cases hh
  obtain ⟨l, hl⟩ := mapOptionList_total _ htot
  refine ⟨l, hl, ?_⟩
  intro s hs
  obtain ⟨hne, hps⟩ := build_mem_elim hl hs
  obtain ⟨x, xs, hD⟩ := List.exists_cons_of_ne_nil hne
  rw [hD, summarizePair_cons] at hps
  have hrec := Option.some.inj hps
  have hshead : s.headcount = (x :: xs).length := by rw [← hrec]
  rw [hshead]
  simp

/-- Claim C7, witness: the theorem applied to `rowsExample`. -/
theorem claim_C7_witness :
    (∀ p ∈ salariesByDepartment rowsExample,
        p.2 ≠ [] ∧ ∃ r ∈ rowsExample, r.department = p.1) ∧
      ∃ l, build_department_summaries rowsExample = some l ∧
        ∀ s ∈ l, s.headcount ≠ 0 :=
  claim_C7 rowsExample

/-- Claim C8: the stored avg_salary is the exact true-division quotient
sum/count of the department's salaries (not an integer/floor division, and
not pre-rounded), and the display renderer applies the one-decimal rounding
to the stored value only when rendering, leaving the summary unchanged. -/
theorem claim_C8 (rows : List EmployeeRecord) (l : List DepartmentSummary)
    (hb : build_department_summaries rows = some l)
    (s : DepartmentSummary) (hs : s ∈ l) :
    s.avg_salary = ((deptSalaries rows s.name).sum : ℚ) /
        ((deptSalaries rows s.name).length : ℚ) ∧
      print_department_summaries [s] =
        [(s.name, s.headcount, s.min_salary, s.max_salary,
          roundTo1 s.avg_salary)] := by
  refine ⟨?_, rfl⟩
  obtain ⟨hne, hps⟩ := build_mem_elim hb hs
  obtain ⟨x, xs, hD⟩ := List.exists_cons_of_ne_nil hne
  rw [hD, summarizePair_cons] at hps
  have hrec := Option.some.inj hps
  rw [hD, ← hrec]

/-- Claim C8, witness: the theorem applied to the Eng summary of
`rowsExample`, whose stored average 475/3 is kept at full precision — it
differs from its one-decimal display rounding 1583/10. -/
theorem claim_C8_witness :
    (build_department_summaries rowsExample = some summariesExample ∧
        engSummary ∈ summariesExample ∧
        engSummary.avg_salary ≠ roundTo1 engSummary.avg_salary) ∧
      engSummary.avg_salary =
          ((deptSalaries rowsExample engSummary.name).sum : ℚ) /
            ((deptSalaries rowsExample engSummary.name).length : ℚ) ∧
        print_department_summaries [engSummary] =
          [(engSummary.name, engSummary.headcount, engSummary.min_salary,
            engSummary.max_salary, roundTo1 engSummary.avg_salary)] :=
  ⟨⟨by norm_num [build_department_summaries, salariesByDepartment, insertWith,
      mapOptionList, summarizePair, pyListMin, pyListMax, rowsExample,
      summariesExample],
    by simp [engSummary, summariesExample],
    by norm_num [engSummary, roundTo1, round_eq]⟩,
   claim_C8 rowsExample summariesExample
    (by norm_num [build_department_summaries, salariesByDepartment, insertWith,
      mapOptionList, summarizePair, pyListMin, pyListMax, rowsExample,
      summariesExample])
    engSummary (by simp [engSummary, summariesExample])⟩

/-- Claim C9: for the empty record list, the hierarchy builder yields an
empty mapping and the salary summary builder yields an empty summary
list. -/
theorem claim_C9 :
    company_hierarchy [] = [] ∧
      build_department_summaries [] = some [] :=
  ⟨rfl, rfl⟩

/-- Claim C10: the salary summary builder returns exactly one summary per
distinct department (names without duplicates, a name appearing iff some
record has that department), ordered by the first occurrence of each
department in the record sequence, and the persister emits one data row per
summary in that same order. -/
theorem claim_C10 (rows : List EmployeeRecord) (l : List DepartmentSummary)
    (hb : build_department_summaries rows = some l) :
    l.map DepartmentSummary.name =
        firstOccurrenceOrder (rows.map (fun r => r.department)) ∧
      (l.map DepartmentSummary.name).Nodup ∧
      (∀ d, d ∈ l.map DepartmentSummary.name ↔
        d ∈ rows.map (fun r => r.department)) ∧
      (write_department_summaries l).rows = l.map summaryRow := by
  have h1 : l.map DepartmentSummary.name =
      (salariesByDepartment rows).map Prod.fst :=
    forall2_map_name (mapOptionList_forall2 hb)
  rw [h1, map_fst_salariesByDepartment]
  exact ⟨rfl, nodup_firstOccurrenceOrder _,
    fun d => mem_firstOccurrenceOrder _ d, rfl⟩

/-- Claim C10, witness: the theorem applied to `rowsExample`, whose
summaries come out in the order Eng, Sales of first appearance. -/
theorem claim_C10_witness :
    build_department_summaries rowsExample = some summariesExample ∧
      (summariesExample.map DepartmentSummary.name =
          firstOccurrenceOrder (rowsExample.map (fun r => r.department)) ∧
        (summariesExample.map DepartmentSummary.name).Nodup ∧
        (∀ d, d ∈ summariesExample.map DepartmentSummary.name ↔
          d ∈ rowsExample.map (fun r => r.department)) ∧
        (write_department_summaries summariesExample).rows =
          summariesExample.map summaryRow) :=
  ⟨by norm_num [build_department_summaries, salariesByDepartment, insertWith,
      mapOptionList, summarizePair, pyListMin, pyListMax, rowsExample,
      summariesExample],
   claim_C10 rowsExample summariesExample
    (by norm_num [build_department_summaries, salariesByDepartment, insertWith,
      mapOptionList, summarizePair, pyListMin, pyListMax, rowsExample,
      summariesExample])⟩

end Report
